import Mathlib

/-!
Verification of the configuration-resolution core of the `esp-homekit-sdk-sys`
build script (`src/build.rs`).

The build script is shallowly embedded:
* the filesystem is a predicate `isFile : String → Bool` on full path strings;
* a Rust `PathBuf` is modelled as `RPath`, a parent directory plus an optional
  final file name (`Path::file_name` / `Path::with_file_name` semantics);
* environment variables are `Option String` parameters;
* fallible operations return `Except String`.
All definitions are translated from `src/build.rs` (plus the small `embuild`
path helper `abspath_relative_to` that it calls); theorems below state the
specified properties about them.
-/

namespace EspHomekitSdkSys

/-- Model of a Rust `PathBuf` as seen by the build script: the parent
directory rendered as a string, and the final component (`Path::file_name`,
`none` when the path has no final file-name component). -/
structure RPath where
  dir : String
  name : Option String
deriving DecidableEq

/-- Render an `RPath` as the full path string used as a filesystem key. -/
def fullPath (p : RPath) : String :=
  match p.name with
  | none => p.dir
  | some n => if p.dir = "" then n else p.dir ++ "/" ++ n

/-- Split a path string into parent directory and final component, a shallow
model of Rust `Path::parent` / `Path::file_name` for ordinary paths (the final
component is `none` when empty or `".."`). -/
def strToPath (s : String) : RPath :=
  let rev := s.data.reverse
  let nameRev := rev.takeWhile (fun c => c ≠ '/')
  let restRev := rev.drop nameRev.length
  let dir : String :=
    if restRev = ['/'] then "/" else String.mk ((restRev.drop 1).reverse)
  let name : Option String :=
    if nameRev = [] then none
    else if nameRev.reverse = ['.', '.'] then none
    else some (String.mk nameRev.reverse)
  ⟨dir, name⟩

/-- Rust `Path::is_absolute` on unix: the path starts with a slash. -/
def startsWithSlash (s : String) : Bool :=
  match s.data with
  | [] => false
  | c :: _ => c = '/'

/-- Rust `Path::join` for a relative right-hand side. -/
def joinPath (base p : String) : String := base ++ "/" ++ p

/-- The `embuild` helper `abspath_relative_to`: return the path itself when it
is already absolute, otherwise join it onto `base`. -/
def abspathRelativeTo (p base : String) : String :=
  if startsWithSlash p then p else joinPath base p

/-- Destination file name taken from the path (`path.file_name().unwrap()`);
total here, returning `""` for the never-occurring nameless case. -/
def fileNameOf (p : RPath) : String := p.name.getD ""

/-- `list_specific_sdkconfigs` from `src/build.rs`: build the four candidate
file names, most specific first, rejoin each onto the parent directory, and
keep those that exist as files, preserving order. -/
def listSpecificSdkconfigs (isFile : String → Bool) (path : RPath)
    (profile chip : String) : List RPath :=
  match path.name with
  | none => []
  | some filename =>
    let profileSpecific := filename ++ "." ++ profile
    let chipSpecific := filename ++ "." ++ chip
    let profileChipSpecific := profileSpecific ++ "." ++ chip
    [profileChipSpecific, chipSpecific, profileSpecific, filename].filterMap
      fun s =>
        let p : RPath := ⟨path.dir, some s⟩
        if isFile (fullPath p) then some p else none

/-- Rust `str::to_lowercase`, modelled characterwise. -/
def toLowerStr (s : String) : String := String.mk (s.data.map Char.toLower)

/-- Rust `str::trim`: drop whitespace from both ends. -/
def trimStr (s : String) : String :=
  String.mk (((s.data.dropWhile Char.isWhitespace).reverse.dropWhile
    Char.isWhitespace).reverse)

/-- Rust `location.strip_prefix("custom:")`. -/
def stripCustom (s : String) : Option String :=
  if "custom:".data.isPrefixOf s.data then some (String.mk (s.data.drop 7))
  else none

/-- The `InstallDir` enum from `src/build.rs`. -/
inductive InstallDir where
  | global
  | workspace (p : String)
  | out (p : String)
  | custom (p : String)
  | fromEnv
deriving DecidableEq

/-- `InstallDir::is_from_env`. -/
def InstallDir.isFromEnv : InstallDir → Bool
  | .fromEnv => true
  | _ => false

/-- The directive match inside `InstallDir::from_env_or`: lowercase the
location and map it to a variant; unrecognized values must carry the
(case-sensitive) `custom:` prefix or the resolution fails. `workspaceDir` is
the result of `workspace_dir()`, `outDir` of `cargo::out_dir()`. -/
def resolveDirective (location : String) (workspaceDir : Option String)
    (outDir builderName : String) : Except String InstallDir :=
  let lc := toLowerStr location
  if lc = "global" then .ok .global
  else if lc = "workspace" then
    match workspaceDir with
    | none => .error "No workspace"
    | some w => .ok (.workspace (joinPath (joinPath w ".embuild") builderName))
  else if lc = "out" then .ok (.out (joinPath outDir builderName))
  else if lc = "fromenv" then .ok .fromEnv
  else
    match stripCustom location with
    | some suffix =>
      match workspaceDir with
      | none => .error "No workspace"
      | some w => .ok (.custom (abspathRelativeTo suffix w))
    | none => .error "Invalid installation directory format"

/-- `InstallDir::from_env_or`: when the environment variable is absent or
blank after trimming, the default directive is used and the returned flag is
`true`; otherwise the trimmed value is used with flag `false`. -/
def fromEnvOr (envVal : Option String) (workspaceDir : Option String)
    (outDir defaultInstallDir builderName : String) :
    Except String (InstallDir × Bool) :=
  let locDefault :=
    match envVal with
    | none => (defaultInstallDir, true)
    | some v =>
      let t := trimStr v
      if t = "" then (defaultInstallDir, true) else (t, false)
  (resolveDirective locDefault.1 workspaceDir outDir builderName).map
    fun d => (d, locDefault.2)

/-- Outcome of the platformio acquisition `match` in `main`. -/
inductive PioAction where
  | reuseEnv
  | warnInstall
  | failNotFound
  | installFresh
deriving DecidableEq

/-- The acquisition decision in `main`: `maybe_from_env` is
`require_from_env || allow_from_env`; a toolchain found in the environment is
reused exactly when `maybe_from_env` holds, otherwise a warning precedes a
fresh install; a missing toolchain is fatal when `require_from_env` holds and
is installed fresh otherwise. -/
def pioAcquire (pioFound allowFromEnv requireFromEnv : Bool) : PioAction :=
  let maybeFromEnv := requireFromEnv || allowFromEnv
  match pioFound, maybeFromEnv with
  | true, true => .reuseEnv
  | true, false => .warnInstall
  | false, true => if requireFromEnv then .failNotFound else .installFresh
  | false, false => .installFresh

/-- The wiring in `main`: resolve the install dir from the environment with
default directive `"workspace"` and builder `"platformio"`, feed the returned
default flag as `allow_from_env` and `InstallDir::is_from_env` as
`require_from_env` into the acquisition decision. -/
def mainPioAction (envVal : Option String) (workspaceDir : Option String)
    (outDir : String) (pioFound : Bool) : Except String PioAction :=
  match fromEnvOr envVal workspaceDir outDir "workspace" "platformio" with
  | .error e => .error e
  | .ok (installDir, allowFromEnv) =>
    .ok (pioAcquire pioFound allowFromEnv installDir.isFromEnv)

/-- Rust `str::split(';')` (never empty: adjacent or outer semicolons yield
empty segments). -/
def splitSemiAux : List Char → List (List Char)
  | [] => [[]]
  | c :: rest =>
    match splitSemiAux rest with
    | [] => [[]]
    | cur :: done => if c = ';' then [] :: cur :: done else (c :: cur) :: done

/-- Split a string at every semicolon. -/
def splitSemi (s : String) : List String :=
  (splitSemiAux s.data).map fun l => String.mk l

/-- The per-segment expansion of the defaults directive in `main` applied to
an already split segment list: empty segments are skipped, each remaining
segment is made absolute relative to the workspace, expanded, and the
expansion reversed; the per-segment lists are then concatenated. -/
def sdkconfigDefaultsPathsSegs (isFile : String → Bool)
    (workspaceDir profile mcu : String) (segs : List String) : List RPath :=
  (segs.filterMap fun v =>
    if v = "" then none
    else
      some ((listSpecificSdkconfigs isFile
        (strToPath (abspathRelativeTo v workspaceDir)) profile mcu).reverse)
  ).flatten

/-- The paths produced from the raw semicolon-separated defaults directive;
each of these is also registered for change-tracking (`cargo::track_file`). -/
def sdkconfigDefaultsPaths (isFile : String → Bool)
    (workspaceDir profile mcu : String) (defaultsVar : String) : List RPath :=
  sdkconfigDefaultsPathsSegs isFile workspaceDir profile mcu
    (splitSemi defaultsVar)

/-- The `(source, destination)` overlay entries of the defaults directive in
`main` applied to a split segment list: each path is paired with its own file
name. -/
def sdkconfigDefaultsEntriesSegs (isFile : String → Bool)
    (workspaceDir profile mcu : String) (segs : List String) :
    List (RPath × String) :=
  (sdkconfigDefaultsPathsSegs isFile workspaceDir profile mcu segs).map
    fun p => (p, fileNameOf p)

/-- The `sdkconfig_defaults` overlay sequence of `main` for a raw directive
string. -/
def sdkconfigDefaultsEntries (isFile : String → Bool)
    (workspaceDir profile mcu : String) (defaultsVar : String) :
    List (RPath × String) :=
  sdkconfigDefaultsEntriesSegs isFile workspaceDir profile mcu
    (splitSemi defaultsVar)

/-- The paths registered for change-tracking by the defaults block of `main`
(every expansion result is tracked by the final `map`). -/
def sdkconfigDefaultsTracked (isFile : String → Bool)
    (workspaceDir profile mcu : String) (defaultsVar : String) : List RPath :=
  sdkconfigDefaultsPaths isFile workspaceDir profile mcu defaultsVar

/-- The primary `sdkconfig` resolution in `main`: the configured path (the
environment value, or `"sdkconfig"` when unset) is made absolute relative to
the workspace, expanded, and only the first (most specific existing)
candidate is taken; its destination is renamed to `"sdkconfig.{profile}"`. -/
def sdkconfigPrimary (isFile : String → Bool)
    (workspaceDir profile mcu : String) (envCfg : Option String) :
    Option (RPath × String) :=
  let file := envCfg.getD "sdkconfig"
  let path := strToPath (abspathRelativeTo file workspaceDir)
  ((listSpecificSdkconfigs isFile path profile mcu).head?).map
    fun p => (p, "sdkconfig." ++ profile)

/-- The paths registered for change-tracking by the primary `sdkconfig` block
of `main`: `track_file` runs inside the `Option::map`, so only the selected
candidate is tracked. -/
def sdkconfigPrimaryTracked (isFile : String → Bool)
    (workspaceDir profile mcu : String) (envCfg : Option String) :
    List RPath :=
  let file := envCfg.getD "sdkconfig"
  let path := strToPath (abspathRelativeTo file workspaceDir)
  ((listSpecificSdkconfigs isFile path profile mcu).head?).toList

/-- All paths registered for change-tracking by the two sdkconfig blocks of
`main`. -/
def sdkconfigAllTracked (isFile : String → Bool)
    (workspaceDir profile mcu : String)
    (envCfg envDefaults : Option String) : List RPath :=
  sdkconfigPrimaryTracked isFile workspaceDir profile mcu envCfg ++
    sdkconfigDefaultsTracked isFile workspaceDir profile mcu
      (envDefaults.getD "sdkconfig.defaults")

/-- The `embuild` kconfig tri-state (boolean-like) value. -/
inductive Tristate where
  | tTrue
  | tFalse
  | tMaybe
deriving DecidableEq

/-- Kconfig value: a boolean-like tri-state or an arbitrary string. -/
inductive KValue where
  | tristate (t : Tristate)
  | str (s : String)
deriving DecidableEq

/-- Contiguous-subsequence test: `pat` occurs somewhere in the list. -/
def isSubstrOf (pat : List Char) : List Char → Bool
  | [] => pat.isPrefixOf []
  | c :: rest => pat.isPrefixOf (c :: rest) || isSubstrOf pat rest

/-- The allow-pattern `regex::Regex::new(r"IDF_TARGET")`: a plain literal, so
matching is case-sensitive substring containment. -/
def kconfigStrAllow (key : String) : Bool :=
  isSubstrOf "IDF_TARGET".data key.data

/-- The filter predicate of the cfg translation in `main`: keep an entry when
its value is the boolean-true tri-state or its key matches the
allow-pattern. -/
def cfgKeep (key : String) (v : KValue) : Bool :=
  (match v with
   | .tristate .tTrue => true
   | _ => false) || kconfigStrAllow key

/-- The cfg translation pipeline of `main`: filter by `cfgKeep`, then render
each kept entry via `to_rustc_cfg` (passed in abstractly as `toRustcCfg`,
already applied to the `"esp_idf"` namespace prefix); entries it cannot
represent yield `none` and are silently dropped. -/
def cfgArgs (toRustcCfg : KValue → String → Option String)
    (entries : List (String × KValue)) : List String :=
  (entries.filter fun e => cfgKeep e.1 e.2).filterMap
    fun e => toRustcCfg e.2 e.1

/-! ### Helper lemmas -/

theorem filterMap_guard_eq_filter_map {α β : Type} (g : α → β) (q : β → Bool) :
    ∀ l : List α,
      (l.filterMap fun s => if q (g s) then some (g s) else none) =
        (l.map g).filter q
  | [] => rfl
  | a :: l => by
    rw [List.filterMap_cons, List.map_cons, List.filter_cons]
    cases h : q (g a) <;>
      simp [h, filterMap_guard_eq_filter_map g q l]

theorem skipEmpty_flatten {β : Type} (f : String → List β) :
    ∀ l : List String,
      ((l.filterMap fun v => if v = "" then none else some (f v)).flatten) =
        (l.filter fun v => v ≠ "").flatMap f
  | [] => rfl
  | a :: l => by
    rw [List.filterMap_cons, List.filter_cons]
    by_cases h : a = "" <;> simp [h, skipEmpty_flatten f l]

theorem sdkconfigDefaultsEntriesSegs_eq_flatMap (isFile : String → Bool)
    (workspaceDir profile mcu : String) (segs : List String) :
    sdkconfigDefaultsEntriesSegs isFile workspaceDir profile mcu segs =
      (segs.filter fun v => v ≠ "").flatMap fun v =>
        ((listSpecificSdkconfigs isFile
          (strToPath (abspathRelativeTo v workspaceDir)) profile mcu).reverse).map
          fun p => (p, fileNameOf p) := by
  unfold sdkconfigDefaultsEntriesSegs sdkconfigDefaultsPathsSegs
  rw [skipEmpty_flatten, List.map_flatMap]

theorem listSpecificSdkconfigs_eq_filter (isFile : String → Bool)
    (dir name profile chip : String) :
    listSpecificSdkconfigs isFile ⟨dir, some name⟩ profile chip =
      ([name ++ "." ++ profile ++ "." ++ chip, name ++ "." ++ chip,
        name ++ "." ++ profile, name].map
          fun s => (⟨dir, some s⟩ : RPath)).filter
        (fun p => isFile (fullPath p)) := by
  show ([name ++ "." ++ profile ++ "." ++ chip, name ++ "." ++ chip,
    name ++ "." ++ profile, name].filterMap fun s =>
      if isFile (fullPath ⟨dir, some s⟩) then some (⟨dir, some s⟩ : RPath)
      else none) = _
  exact filterMap_guard_eq_filter_map
    (fun s => (⟨dir, some s⟩ : RPath)) (fun p => isFile (fullPath p)) _

theorem isFile_of_mem_listSpecificSdkconfigs {isFile : String → Bool}
    {path : RPath} {profile chip : String} {p : RPath}
    (h : p ∈ listSpecificSdkconfigs isFile path profile chip) :
    isFile (fullPath p) = true := by
  obtain ⟨dir, name⟩ := path
  cases name with
  | none => simp [listSpecificSdkconfigs] at h
  | some n =>
    rw [listSpecificSdkconfigs_eq_filter] at h
    exact (List.mem_filter.mp h).2

/-! ### Claim theorems -/

/-- C1: for every base path (directory plus file name), profile and chip, the
expansion `list_specific_sdkconfigs` yields exactly the candidates among
`name.profile.chip`, `name.chip`, `name.profile`, `name` (joined onto the
parent directory) that exist as files, in that most-specific-first order; in
particular when only the base file exists the expansion is exactly the base
file. -/
theorem listSpecificSdkconfigs_spec (isFile : String → Bool)
    (dir name profile chip : String) :
    listSpecificSdkconfigs isFile ⟨dir, some name⟩ profile chip =
      ([name ++ "." ++ profile ++ "." ++ chip, name ++ "." ++ chip,
        name ++ "." ++ profile, name].map
          fun s => (⟨dir, some s⟩ : RPath)).filter
        (fun p => isFile (fullPath p)) ∧
    (isFile (fullPath ⟨dir, some (name ++ "." ++ profile ++ "." ++ chip)⟩) = false →
     isFile (fullPath ⟨dir, some (name ++ "." ++ chip)⟩) = false →
     isFile (fullPath ⟨dir, some (name ++ "." ++ profile)⟩) = false →
     isFile (fullPath ⟨dir, some name⟩) = true →
     listSpecificSdkconfigs isFile ⟨dir, some name⟩ profile chip =
       [⟨dir, some name⟩]) := by
  refine ⟨listSpecificSdkconfigs_eq_filter isFile dir name profile chip,
    fun h1 h2 h3 h4 => ?_⟩
  rw [listSpecificSdkconfigs_eq_filter]
  simp [List.filter_cons, h1, h2, h3, h4]

/-- The C1 theorem applied at a concrete filesystem in which only the base
file exists. -/
theorem listSpecificSdkconfigs_spec_witness :
    listSpecificSdkconfigs (fun s => s == "/w/sdkconfig")
      ⟨"/w", some "sdkconfig"⟩ "release" "esp32" =
      [⟨"/w", some "sdkconfig"⟩] :=
  (listSpecificSdkconfigs_spec (fun s => s == "/w/sdkconfig")
    "/w" "sdkconfig" "release" "esp32").2
    (by decide) (by decide) (by decide) (by decide)

/-- Concrete filesystem for the worked example of C2: only `a.p.c`, `a.c` and
`b.p` exist under `/w`. -/
def exFsC2 : String → Bool :=
  fun s => s == "/w/a.p.c" || s == "/w/a.c" || s == "/w/b.p"

/-- C2: the defaults overlay sequence equals the concatenation, in input-list
order over the non-empty semicolon-separated segments, of the reverse of each
base path's specificity expansion, each entry paired with its own file name;
and on the worked example `"a;b"` with variants `a.p.c`, `a.c`, `b.p` the
output is `[a.c, a.p.c, b.p]`. -/
theorem sdkconfigDefaults_spec (isFile : String → Bool)
    (workspaceDir profile mcu defaultsVar : String) :
    sdkconfigDefaultsEntries isFile workspaceDir profile mcu defaultsVar =
      ((splitSemi defaultsVar).filter fun v => v ≠ "").flatMap
        (fun v =>
          ((listSpecificSdkconfigs isFile
            (strToPath (abspathRelativeTo v workspaceDir)) profile mcu).reverse).map
            fun p => (p, fileNameOf p)) ∧
    sdkconfigDefaultsEntries exFsC2 "/w" "p" "c" "a;b" =
      [(⟨"/w", some "a.c"⟩, "a.c"), (⟨"/w", some "a.p.c"⟩, "a.p.c"),
       (⟨"/w", some "b.p"⟩, "b.p")] := by
  constructor
  · exact sdkconfigDefaultsEntriesSegs_eq_flatMap isFile workspaceDir profile
      mcu (splitSemi defaultsVar)
  · decide

/-- C10: empty segments of the defaults directive are skipped: the resolved
sequence of any segment list equals that of the list with empty segments
removed, the string pipeline factors through the non-empty segments, the
directive `";;a;;b;"` resolves as `"a;b"` does, and a directive of only
semicolons yields the empty sequence. -/
theorem sdkconfigDefaults_skip_empty (isFile : String → Bool)
    (workspaceDir profile mcu : String) :
    (∀ segs : List String,
      sdkconfigDefaultsEntriesSegs isFile workspaceDir profile mcu segs =
        sdkconfigDefaultsEntriesSegs isFile workspaceDir profile mcu
          (segs.filter fun v => v ≠ "")) ∧
    (∀ defaultsVar : String,
      sdkconfigDefaultsEntries isFile workspaceDir profile mcu defaultsVar =
        sdkconfigDefaultsEntriesSegs isFile workspaceDir profile mcu
          ((splitSemi defaultsVar).filter fun v => v ≠ "")) ∧
    sdkconfigDefaultsEntries isFile workspaceDir profile mcu ";;a;;b;" =
      sdkconfigDefaultsEntries isFile workspaceDir profile mcu "a;b" ∧
    sdkconfigDefaultsEntries isFile workspaceDir profile mcu ";;;" = [] := by
  have key : ∀ segs : List String,
      sdkconfigDefaultsEntriesSegs isFile workspaceDir profile mcu segs =
        sdkconfigDefaultsEntriesSegs isFile workspaceDir profile mcu
          (segs.filter fun v => v ≠ "") := by
    intro segs
    rw [sdkconfigDefaultsEntriesSegs_eq_flatMap,
      sdkconfigDefaultsEntriesSegs_eq_flatMap, List.filter_filter]
    simp
  refine ⟨key, fun v => key (splitSemi v), ?_, rfl⟩
  show sdkconfigDefaultsEntriesSegs isFile workspaceDir profile mcu
      (splitSemi ";;a;;b;") = sdkconfigDefaultsEntriesSegs isFile workspaceDir
      profile mcu (splitSemi "a;b")
  rw [key (splitSemi ";;a;;b;")]
  rfl

theorem string_data_append (s t : String) : (s ++ t).data = s.data ++ t.data :=
  rfl

theorem custom_append_ne_empty (s : String) : ("custom:" ++ s) ≠ "" := by
  intro h
  have h2 := congrArg String.data h
  rw [string_data_append] at h2
  simp at h2

theorem toLower_custom_data (s : String) :
    (toLowerStr ("custom:" ++ s)).data =
      'c' :: 'u' :: 's' :: 't' :: 'o' :: 'm' :: ':' ::
        s.data.map Char.toLower := by
  show ("custom:" ++ s).data.map Char.toLower = _
  rw [string_data_append, List.map_append]
  rfl

theorem toLower_custom_head (s : String) :
    (toLowerStr ("custom:" ++ s)).data.head? = some 'c' := by
  rw [toLower_custom_data]
  rfl

theorem toLower_custom_ne (s : String) :
    toLowerStr ("custom:" ++ s) ≠ "global" ∧
    toLowerStr ("custom:" ++ s) ≠ "workspace" ∧
    toLowerStr ("custom:" ++ s) ≠ "out" ∧
    toLowerStr ("custom:" ++ s) ≠ "fromenv" := by
  refine ⟨?_, ?_, ?_, ?_⟩ <;> intro h <;>
    exact absurd (h ▸ toLower_custom_head s) (by decide)

theorem stripCustom_append (s : String) :
    stripCustom ("custom:" ++ s) = some s := by
  have hpre : "custom:".data.isPrefixOf ("custom:" ++ s).data = true := by
    rw [string_data_append]
    exact List.isPrefixOf_iff_prefix.mpr (List.prefix_append _ _)
  unfold stripCustom
  rw [if_pos hpre, string_data_append,
    show (7 : Nat) = "custom:".data.length from rfl, List.drop_left]

/-- C3: the resolution uses the default directive with flag `true` exactly
when the environment value is absent or blank after trimming and the trimmed
value with flag `false` otherwise; the directive match is case-insensitive
(`"FROMENV"` resolves to `FromEnv`); and a non-blank value that is none of
the four literals (case-insensitively) and does not carry the `custom:`
prefix fails with a configuration error, `"bogus"` in particular. -/
theorem install_dir_resolution_spec (ws : Option String) (outDir d b : String) :
    (∀ envVal : Option String,
      (envVal = none ∨ ∃ v, envVal = some v ∧ trimStr v = "") →
      fromEnvOr envVal ws outDir d b =
        (resolveDirective d ws outDir b).map fun i => (i, true)) ∧
    (∀ v : String, trimStr v ≠ "" →
      fromEnvOr (some v) ws outDir d b =
        (resolveDirective (trimStr v) ws outDir b).map fun i => (i, false)) ∧
    fromEnvOr (some "FROMENV") ws outDir d b = .ok (.fromEnv, false) ∧
    (∀ v : String,
      toLowerStr (trimStr v) ≠ "global" →
      toLowerStr (trimStr v) ≠ "workspace" →
      toLowerStr (trimStr v) ≠ "out" →
      toLowerStr (trimStr v) ≠ "fromenv" →
      stripCustom (trimStr v) = none →
      trimStr v ≠ "" →
      fromEnvOr (some v) ws outDir d b =
        .error "Invalid installation directory format") ∧
    fromEnvOr (some "bogus") ws outDir d b =
      .error "Invalid installation directory format" := by
  refine ⟨?_, ?_, by rfl, ?_, by rfl⟩
  · rintro envVal (rfl | ⟨v, rfl, ht⟩)
    · rfl
    · unfold fromEnvOr
      simp [ht]
  · intro v h
    unfold fromEnvOr
    simp [h]
  · intro v h1 h2 h3 h4 h5 h6
    unfold fromEnvOr resolveDirective
    simp [h1, h2, h3, h4, h5, h6, Except.map]

/-- The C3 theorem applied at the unrecognized directive `" bogus "`. -/
theorem install_dir_resolution_spec_witness :
    fromEnvOr (some " bogus ") (some "/w") "/o" "workspace" "platformio" =
      .error "Invalid installation directory format" :=
  (install_dir_resolution_spec (some "/w") "/o" "workspace"
    "platformio").2.2.2.1 " bogus " (by decide) (by decide) (by decide)
    (by decide) (by decide) (by decide)

/-- C4: a `custom:`-prefixed environment value resolves to `Custom` carrying
the suffix resolved as a path — the suffix itself when absolute, otherwise
the suffix joined onto the workspace root — with flag `false`; in particular
`"custom:/tmp/x"` yields `Custom("/tmp/x")`. -/
theorem custom_install_dir_spec (suffix w outDir d b : String)
    (h : trimStr ("custom:" ++ suffix) = "custom:" ++ suffix) :
    fromEnvOr (some ("custom:" ++ suffix)) (some w) outDir d b =
      .ok (.custom (abspathRelativeTo suffix w), false) ∧
    (startsWithSlash suffix = true → abspathRelativeTo suffix w = suffix) ∧
    (startsWithSlash suffix = false →
      abspathRelativeTo suffix w = w ++ "/" ++ suffix) ∧
    fromEnvOr (some "custom:/tmp/x") (some w) outDir d b =
      .ok (.custom "/tmp/x", false) := by
  obtain ⟨n1, n2, n3, n4⟩ := toLower_custom_ne suffix
  refine ⟨?_, ?_, ?_, by rfl⟩
  · unfold fromEnvOr
    simp only [h, if_neg (custom_append_ne_empty suffix)]
    unfold resolveDirective
    simp only [if_neg n1, if_neg n2, if_neg n3, if_neg n4, stripCustom_append]
    rfl
  · intro hs
    simp [abspathRelativeTo, hs]
  · intro hs
    simp [abspathRelativeTo, joinPath, hs]

/-- The C4 theorem applied at the relative suffix `"x"`. -/
theorem custom_install_dir_spec_witness :
    fromEnvOr (some ("custom:" ++ "x")) (some "/w") "/o" "workspace"
      "platformio" = .ok (.custom (abspathRelativeTo "x" "/w"), false) :=
  (custom_install_dir_spec "x" "/w" "/o" "workspace" "platformio"
    (by decide)).1

/-- C5 counterexample: with a toolchain found externally, `allowFromEnv`
false and `requireFromEnv` true (the `"fromenv"` directive set explicitly),
the code reuses the external instance instead of warning and installing
fresh, contradicting the claimed decision-table row for found-but-not-
allowed. -/
theorem pioAcquire_found_mandated_env :
    pioAcquire true false true = PioAction.reuseEnv ∧
    pioAcquire true false true ≠ PioAction.warnInstall := by decide

/-- C5 amended: a found toolchain is reused when `allowFromEnv` holds, and
also when `requireFromEnv` holds; the warn-and-install-fresh row applies only
when neither flag holds; a missing toolchain fails when `requireFromEnv`
holds and is installed fresh otherwise. -/
theorem pioAcquire_decision_table :
    ∀ found allow require : Bool,
      (found = true → allow = true →
        pioAcquire found allow require = .reuseEnv) ∧
      (found = true → allow = false → require = true →
        pioAcquire found allow require = .reuseEnv) ∧
      (found = true → allow = false → require = false →
        pioAcquire found allow require = .warnInstall) ∧
      (found = false → require = true →
        pioAcquire found allow require = .failNotFound) ∧
      (found = false → require = false →
        pioAcquire found allow require = .installFresh) := by
  decide

/-- The amended C5 decision table applied at found-not-allowed-not-required:
a warning and fresh install. -/
theorem pioAcquire_decision_table_witness :
    pioAcquire true false false = PioAction.warnInstall :=
  (pioAcquire_decision_table true false false).2.2.1 rfl rfl rfl

/-- C9: the `allow_from_env` flag fed to acquisition is exactly the
default flag returned by the install-dir resolution; a found toolchain is
reused iff the flag was the default or the directive resolved to `FromEnv`;
and every explicitly set non-`fromenv` directive forces a fresh install (with
a warning) even when a toolchain is found. -/
theorem pio_wiring_spec (envVal ws : Option String) (outDir : String)
    (found : Bool) (d : InstallDir) (isDef : Bool)
    (h : fromEnvOr envVal ws outDir "workspace" "platformio" = .ok (d, isDef)) :
    mainPioAction envVal ws outDir found =
      .ok (pioAcquire found isDef d.isFromEnv) ∧
    (pioAcquire found isDef d.isFromEnv = .reuseEnv ↔
      found = true ∧ (isDef = true ∨ d = .fromEnv)) ∧
    (found = true → isDef = false → d ≠ .fromEnv →
      pioAcquire found isDef d.isFromEnv = .warnInstall) := by
  refine ⟨?_, ?_, ?_⟩
  · unfold mainPioAction
    rw [h]
  · cases found <;> cases isDef <;> cases d <;>
      simp [pioAcquire, InstallDir.isFromEnv]
  · intro hf hd hne
    subst hf
    subst hd
    cases d <;> simp_all [pioAcquire, InstallDir.isFromEnv]

/-- The C9 wiring theorem applied at an unset environment variable (default
`workspace` directive). -/
theorem pio_wiring_spec_witness :
    mainPioAction none (some "/w") "/o" true =
      .ok (pioAcquire true true (InstallDir.workspace
        (joinPath (joinPath "/w" ".embuild") "platformio")).isFromEnv) :=
  (pio_wiring_spec none (some "/w") "/o" true
    (InstallDir.workspace (joinPath (joinPath "/w" ".embuild") "platformio"))
    true (by rfl)).1

/-- C7: the primary configuration entry is the first (most specific) existing
result of the expansion of the configured primary-config path, its
destination renamed to `"sdkconfig.{profile}"`, and no entry is produced when
no candidate exists. -/
theorem sdkconfigPrimary_spec (isFile : String → Bool)
    (ws profile mcu : String) (envCfg : Option String) :
    sdkconfigPrimary isFile ws profile mcu envCfg =
      ((listSpecificSdkconfigs isFile
        (strToPath (abspathRelativeTo (envCfg.getD "sdkconfig") ws)) profile
        mcu).head?).map (fun p => (p, "sdkconfig." ++ profile)) ∧
    (listSpecificSdkconfigs isFile
        (strToPath (abspathRelativeTo (envCfg.getD "sdkconfig") ws)) profile
        mcu = [] →
      sdkconfigPrimary isFile ws profile mcu envCfg = none) ∧
    (∀ p dst, sdkconfigPrimary isFile ws profile mcu envCfg = some (p, dst) →
      dst = "sdkconfig." ++ profile ∧ isFile (fullPath p) = true ∧
      p ∈ listSpecificSdkconfigs isFile
        (strToPath (abspathRelativeTo (envCfg.getD "sdkconfig") ws)) profile
        mcu) := by
  refine ⟨rfl, ?_, ?_⟩
  · intro h
    simp [sdkconfigPrimary, h]
  · intro p dst h
    unfold sdkconfigPrimary at h
    obtain ⟨q, hq, heq⟩ := Option.map_eq_some'.mp h
    have h1 : q = p := congrArg Prod.fst heq
    have h2 : dst = "sdkconfig." ++ profile := (congrArg Prod.snd heq).symm
    subst h1
    have hmem : q ∈ listSpecificSdkconfigs isFile
        (strToPath (abspathRelativeTo (envCfg.getD "sdkconfig") ws)) profile
        mcu := List.mem_of_mem_head? (by rw [hq]; rfl)
    exact ⟨h2, isFile_of_mem_listSpecificSdkconfigs hmem, hmem⟩

/-- The C7 theorem applied at a filesystem holding only the base file. -/
theorem sdkconfigPrimary_spec_witness :
    "sdkconfig.p" = "sdkconfig." ++ "p" ∧
    (fun s => s == "/w/sdkconfig") (fullPath ⟨"/w", some "sdkconfig"⟩) = true ∧
    (⟨"/w", some "sdkconfig"⟩ : RPath) ∈
      listSpecificSdkconfigs (fun s => s == "/w/sdkconfig")
        (strToPath (abspathRelativeTo ((none : Option String).getD
          "sdkconfig") "/w")) "p" "c" :=
  (sdkconfigPrimary_spec (fun s => s == "/w/sdkconfig") "/w" "p" "c"
    none).2.2 ⟨"/w", some "sdkconfig"⟩ "sdkconfig.p" (by decide)

/-- Concrete filesystem for the C6 counterexample: the primary config exists
both as the base `sdkconfig` and as the profile variant `sdkconfig.p`. -/
def cfgFsC6 : String → Bool :=
  fun s => s == "/w/sdkconfig" || s == "/w/sdkconfig.p"

/-- C6 counterexample: with both `sdkconfig` and `sdkconfig.p` existing, the
base file is an existing variant produced by the primary path's expansion,
yet it is not registered for change-tracking — only the selected most
specific variant is. -/
theorem tracking_misses_primary_variant :
    (⟨"/w", some "sdkconfig"⟩ : RPath) ∈
      listSpecificSdkconfigs cfgFsC6
        (strToPath (abspathRelativeTo ((none : Option String).getD
          "sdkconfig") "/w")) "p" "c" ∧
    (⟨"/w", some "sdkconfig"⟩ : RPath) ∉
      sdkconfigAllTracked cfgFsC6 "/w" "p" "c" none none := by decide

/-- C6 amended: every existing expansion variant of every (non-empty)
defaults base path is registered for change-tracking, while for the primary
config path only the selected (most specific existing) variant is
tracked. -/
theorem sdkconfig_tracking_spec (isFile : String → Bool)
    (ws profile mcu : String) :
    (∀ (defaultsVar seg : String) (p : RPath),
      seg ∈ splitSemi defaultsVar → seg ≠ "" →
      p ∈ listSpecificSdkconfigs isFile
        (strToPath (abspathRelativeTo seg ws)) profile mcu →
      p ∈ sdkconfigDefaultsTracked isFile ws profile mcu defaultsVar) ∧
    (∀ envCfg : Option String,
      sdkconfigPrimaryTracked isFile ws profile mcu envCfg =
        ((listSpecificSdkconfigs isFile
          (strToPath (abspathRelativeTo (envCfg.getD "sdkconfig") ws)) profile
          mcu).head?).toList) := by
  refine ⟨?_, fun _ => rfl⟩
  intro defaultsVar seg p hseg hne hp
  unfold sdkconfigDefaultsTracked sdkconfigDefaultsPaths
    sdkconfigDefaultsPathsSegs
  rw [List.mem_flatten]
  refine ⟨(listSpecificSdkconfigs isFile
    (strToPath (abspathRelativeTo seg ws)) profile mcu).reverse, ?_,
    by simpa using hp⟩
  rw [List.mem_filterMap]
  exact ⟨seg, hseg, by rw [if_neg hne]⟩

/-- The amended C6 theorem applied at a single-segment directive whose base
file exists. -/
theorem sdkconfig_tracking_spec_witness :
    (⟨"/w", some "a"⟩ : RPath) ∈
      sdkconfigDefaultsTracked (fun s => s == "/w/a") "/w" "p" "c" "a" :=
  (sdkconfig_tracking_spec (fun s => s == "/w/a") "/w" "p" "c").1 "a" "a"
    ⟨"/w", some "a"⟩ (by decide) (by decide) (by decide)

/-- A concrete always-representable renderer standing in for
`Value::to_rustc_cfg("esp_idf", key)` in counterexample computations. -/
def toRustcCfgKeyOnly : KValue → String → Option String := fun _ k => some k

/-- C8 counterexample: the allow-pattern `IDF_TARGET` is case-sensitive, so
the key `"esp_idf_config_idf_target"` does not match it, and an entry with
that key and a non-boolean value is dropped rather than emitted. -/
theorem cfg_allow_case_sensitive :
    kconfigStrAllow "esp_idf_config_idf_target" = false ∧
    cfgArgs toRustcCfgKeyOnly
      [("esp_idf_config_idf_target", KValue.str "esp32")] = [] := by decide

theorem cfgKeep_iff (key : String) (v : KValue) :
    cfgKeep key v = true ↔
      (v = KValue.tristate .tTrue ∨ kconfigStrAllow key = true) := by
  cases v with
  | tristate t => cases t <;> simp [cfgKeep]
  | str s => simp [cfgKeep]

/-- C8 amended: the translation keeps an entry exactly when its value is the
boolean-true tri-state or its key matches the (case-sensitive) allow-pattern
`IDF_TARGET`: a tri-state-true entry with key `"esp_idf_foo"` is emitted, a
tri-state-false entry with a non-matching key is dropped, a non-boolean
entry whose key `"CONFIG_IDF_TARGET"` matches the allow-pattern is emitted
(the claim's lowercase key `"esp_idf_config_idf_target"` does not match),
and kept entries the renderer cannot represent are silently dropped. -/
theorem cfgArgs_spec (toR : KValue → String → Option String)
    (entries : List (String × KValue)) :
    cfgArgs toR entries = (entries.filterMap fun e =>
      if e.2 = KValue.tristate .tTrue ∨ kconfigStrAllow e.1 = true
      then toR e.2 e.1 else none) ∧
    cfgArgs toR [("esp_idf_foo", KValue.tristate .tTrue)] =
      (toR (KValue.tristate .tTrue) "esp_idf_foo").toList ∧
    cfgArgs toR [("esp_idf_foo", KValue.tristate .tFalse)] = [] ∧
    cfgArgs toR [("CONFIG_IDF_TARGET", KValue.str "esp32")] =
      (toR (KValue.str "esp32") "CONFIG_IDF_TARGET").toList ∧
    cfgArgs (fun _ _ => none) entries = [] := by
  have key : ∀ l : List (String × KValue),
      cfgArgs toR l = l.filterMap fun e =>
        if e.2 = KValue.tristate .tTrue ∨ kconfigStrAllow e.1 = true
        then toR e.2 e.1 else none := by
    intro l
    induction l with
    | nil => rfl
    | cons e l ih =>
      have ih' : (List.filter (fun e => cfgKeep e.1 e.2) l).filterMap
          (fun e => toR e.2 e.1) = List.filterMap (fun e =>
            if e.2 = KValue.tristate .tTrue ∨ kconfigStrAllow e.1 = true
            then toR e.2 e.1 else none) l := ih
      show (List.filter _ (e :: l)).filterMap _ = _
      rw [List.filter_cons, List.filterMap_cons]
      by_cases h : e.2 = KValue.tristate .tTrue ∨ kconfigStrAllow e.1 = true
      · rw [if_pos ((cfgKeep_iff e.1 e.2).mpr h), if_pos h,
          List.filterMap_cons]
        cases hr : toR e.2 e.1 <;> simp [hr, ih']
      · rw [if_neg (fun hk => h ((cfgKeep_iff e.1 e.2).mp hk)), if_neg h]
        exact ih'
  have hnone : ∀ l : List (String × KValue),
      l.filterMap (fun _ => (none : Option String)) = [] := by
    intro l
    induction l with
    | nil => rfl
    | cons e l ih => rw [List.filterMap_cons]; exact ih
  refine ⟨key entries, ?_, rfl, ?_, ?_⟩
  · rw [key]
    cases hr : toR (KValue.tristate .tTrue) "esp_idf_foo" <;>
      simp [List.filterMap_cons, hr]
  · rw [key]
    cases hr : toR (KValue.str "esp32") "CONFIG_IDF_TARGET" <;>
      simp [List.filterMap_cons, hr,
        show kconfigStrAllow "CONFIG_IDF_TARGET" = true from by decide]
  · show (List.filter _ entries).filterMap _ = _
    exact hnone _

end EspHomekitSdkSys
